import Mathlib

/-!
Verification of the content-resolution core of the `ai-daily` repository:
the front-matter splitter, paper parser and issue resolver
(`apps/web/lib/content.ts`), the digest-narrative sectionizer
(`apps/web/lib/digest.ts`) and the markdown block parser
(`apps/web/lib/markdown.ts`).

The TypeScript sources are shallowly embedded as Lean functions.  String
operations are modelled over `List Char` with structural recursions so that
every definition evaluates by kernel reduction; the correspondence with the
ECMAScript string/regex primitives used by the source is noted at each
definition.  The filesystem that the issue resolver reads is modelled
explicitly as a value (`FileSys`): one record per candidate issue directory
carrying the contents of the files that the resolver may read.  `JSON.parse`
is an ECMAScript built-in whose grammar is external to the repository; its
outcome (an exception, or a parsed JSON value) is modelled as an
`Option Json` input.
-/

namespace AiDaily

/-- The whitespace class used by JS `String.prototype.trim` and the regex
class `\s`, restricted to the ASCII range (the only range the repository's
inputs exercise). -/
def jsWsChar (c : Char) : Bool :=
  c == ' ' || c == '\t' || c == '\n' || c == '\r' || c == '\x0b' || c == '\x0c'

/-- Characters of a JS string; JS indexes by UTF-16 unit, Lean by codepoint,
which agree on every operation the source performs (all sliced prefixes are
ASCII). -/
def chars (s : String) : List Char := s.data

/-- JS `s.trim()` on the character list. -/
def trimChars (l : List Char) : List Char :=
  ((l.dropWhile jsWsChar).reverse.dropWhile jsWsChar).reverse

/-- JS `s.trim()`. -/
def jsTrim (s : String) : String := ⟨trimChars s.data⟩

/-- JS `s.startsWith(pre)`. -/
def jsStartsWith (s pre : String) : Bool := pre.data.isPrefixOf s.data

/-- JS `s.endsWith(suf)`. -/
def jsEndsWith (s suf : String) : Bool := suf.data.isSuffixOf s.data

/-- Contiguous-sublist test on character lists. -/
def hasInfixChars : List Char → List Char → Bool
  | l, sub =>
    sub.isPrefixOf l ||
      match l with
      | [] => false
      | _ :: t => hasInfixChars t sub

/-- JS `s.includes(sub)` (substring containment). -/
def jsIncludes (s sub : String) : Bool := hasInfixChars s.data sub.data

/-- JS `s.slice(n)` for a non-negative `n`. -/
def jsDrop (s : String) (n : Nat) : String := ⟨s.data.drop n⟩

/-- JS `s.slice(0, s.length - n)` / removal of `n` trailing characters. -/
def jsDropRight (s : String) (n : Nat) : String := ⟨s.data.take (s.data.length - n)⟩

/-- Split a character list at every occurrence of the character `c`;
mirrors JS `s.split(sep)` for a one-character separator
(`"".split(sep)` is `[""]`, a trailing separator yields a trailing `""`). -/
def splitOnChar (c : Char) : List Char → List (List Char)
  | [] => [[]]
  | x :: xs =>
    let r := splitOnChar c xs
    if x == c then [] :: r
    else
      match r with
      | [] => [[x]]
      | h :: t => (x :: h) :: t

/-- JS `s.split("\n")`. -/
def splitNl (s : String) : List String := (splitOnChar '\n' s.data).map (fun l => ⟨l⟩)

/-- JS `lines.join("\n")`. -/
def joinNl (ls : List String) : String := String.intercalate "\n" ls

/-- JS `s.split(/\r?\n/)`: split at every `"\n"` and let the optional `\r`
join the separator, i.e. strip one trailing `'\r'` from every piece that was
followed by a `"\n"` (hence: from every piece except the last). -/
def stripCrButLast : List String → List String
  | [] => []
  | [l] => [l]
  | l :: rest => (if jsEndsWith l "\r" then jsDropRight l 1 else l) :: stripCrButLast rest

/-- JS `s.split(/\r?\n/)`. -/
def splitLinesCrLf (s : String) : List String := stripCrButLast (splitNl s)

/-- JS `s.toLowerCase()` (ASCII range, the only range used for keys). -/
def jsToLower (s : String) : String := ⟨s.data.map Char.toLower⟩

/-- JS truthiness-based `a || b` on an optional string: `undefined` and
`""` fall through to the fallback. -/
def jsOr (a : Option String) (b : String) : String :=
  match a with
  | some s => if s == "" then b else s
  | none => b

/-- JS `s.replace(/^"|"$/g, "")`: one leading and one trailing double quote
removed (each at most once; a single quote character cannot match twice). -/
def stripQuotes (s : String) : String :=
  let s1 := if jsStartsWith s "\"" then jsDrop s 1 else s
  if jsEndsWith s1 "\"" then jsDropRight s1 1 else s1

/-- JS `a < b` on strings: lexicographic comparison by code unit (equal to
codepoint-lexicographic comparison on the ASCII keys being sorted). -/
def jsLtChars : List Char → List Char → Bool
  | [], [] => false
  | [], _ :: _ => true
  | _ :: _, [] => false
  | a :: as, b :: bs =>
    if a.val < b.val then true else if b.val < a.val then false else jsLtChars as bs

/-- JS string comparison `a < b`. -/
def jsLt (a b : String) : Bool := jsLtChars a.data b.data

/-- The issue-date pattern `/^\d{4}-\d{2}-\d{2}$/`. -/
def isDateKey (s : String) : Bool :=
  match s.data with
  | [a, b, c, d, e, f, g, h, i, j] =>
    a.isDigit && b.isDigit && c.isDigit && d.isDigit && e == '-' &&
    f.isDigit && g.isDigit && h == '-' && i.isDigit && j.isDigit
  | _ => false

/-! ## Front-matter splitter (`content.ts`, `parseFrontMatter`) -/

/-- Result of `parseFrontMatter`: the `{ data, body }` object of the source. -/
structure FrontMatter where
  data : List (String × String)
  body : String
  deriving Repr, DecidableEq

/-- JS object assignment `data[key] = value` on a string-keyed record:
an existing key is overwritten in place, a new key is appended
(last occurrence wins, insertion order preserved). -/
def recordSet (data : List (String × String)) (k v : String) : List (String × String) :=
  if data.any (fun p => p.1 == k) then
    data.map (fun p => if p.1 == k then (k, v) else p)
  else data ++ [(k, v)]

/-- JS property read `data[key]` on the record (`undefined` when absent). -/
def recordGet (data : List (String × String)) (k : String) : Option String :=
  (data.find? (fun p => p.1 == k)).map (·.2)

/-- One loop iteration of `parseFrontMatter` on a non-fence line:
`idx = line.indexOf(":")`; lines with `idx <= 0` are ignored, otherwise
`key = line.slice(0, idx).trim().toLowerCase()` and
`value = line.slice(idx + 1).trim().replace(/^"|"$/g, "")`. -/
def fmParseLine (data : List (String × String)) (line : String) : List (String × String) :=
  let pre := line.data.takeWhile (fun c => c != ':')
  if pre.length == line.data.length then data
  else if pre.length == 0 then data
  else
    recordSet data (jsToLower (jsTrim ⟨pre⟩)) (stripQuotes (jsTrim ⟨line.data.drop (pre.length + 1)⟩))

/-- The scan of `parseFrontMatter` over `lines[1..]`: stops at the first line
whose trim is `"---"` (returning the record and the remaining lines), or
returns `none` when no such line exists (`end === -1`). -/
def fmLoop : List String → List (String × String) → Option (List (String × String) × List String)
  | [], _ => none
  | l :: rest, data =>
    if jsTrim l == "---" then some (data, rest)
    else fmLoop rest (fmParseLine data l)

/-- Embedding of `parseFrontMatter` (content.ts lines 8-29). -/
def parseFrontMatter (raw : String) : FrontMatter :=
  if jsStartsWith raw "---\n" then
    match fmLoop ((splitNl raw).drop 1) [] with
    | some (data, rest) => ⟨data, joinNl rest⟩
    | none => ⟨[], raw⟩
  else ⟨[], raw⟩

/-! ## JSON values and the data model (`types.ts`) -/

/-- A JSON value, as produced by a successful `JSON.parse`.  The object case
carries the final key/value record of the parse (duplicate keys already
resolved, last occurrence winning, as `JSON.parse` does). -/
inductive Json where
  | null : Json
  | bool : Bool → Json
  | num : Int → Json
  | str : String → Json
  | arr : List Json → Json
  | obj : List (String × Json) → Json
  deriving Repr

/-- JS property read `j.k` on a parsed JSON value.  A missing key, or a read
on a non-object, yields `Json.null`, standing for `undefined`: the resolver
only ever asks whether the result is truthy or an array, on which `null` and
`undefined` agree.  (A property read on the value `null` itself throws in
JS; the throw is caught by the surrounding `try` of `parseIssueFromAdapter`
and is observably the same as the falsy result modelled here.) -/
def Json.get (j : Json) (k : String) : Json :=
  match j with
  | .obj kvs =>
    match kvs.find? (fun p => p.1 == k) with
    | some p => p.2
    | none => .null
  | _ => .null

/-- JS truthiness of a JSON value. -/
def Json.truthy : Json → Bool
  | .null => false
  | .bool b => b
  | .num n => n != 0
  | .str s => s != ""
  | .arr _ => true
  | .obj _ => true

/-- JS `Array.isArray`. -/
def Json.isArray : Json → Bool
  | .arr _ => true
  | _ => false

/-- The `Paper` record of `types.ts`. -/
structure Paper where
  id : String
  title : String
  authors : String
  summary : String
  tags : List String
  url : String
  markdown : String
  image : Option String
  deriving Repr, DecidableEq

/-- The `Issue` record of `types.ts` (`digest` is an optional field). -/
structure Issue where
  date : String
  title : String
  digest : Option String
  papers : List Paper
  deriving Repr, DecidableEq

/-- An element of the list returned by `getIssues`: either the typed issue
built by the raw-parse path `parseIssueFromFs`, or the JSON value returned
verbatim (cast `as Issue`, unchecked at runtime) by the snapshot path
`parseIssueFromAdapter`. -/
inductive IssueVal where
  | fromFs : Issue → IssueVal
  | fromAdapter : Json → IssueVal
  deriving Repr

/-- The `date` field of a resolved issue as the dynamic value it has at
runtime: the directory-name string on the raw-parse path, and whatever the
snapshot's `date` property holds on the snapshot path. -/
def IssueVal.dateVal : IssueVal → Json
  | .fromFs i => .str i.date
  | .fromAdapter j => j.get "date"

/-! ## Filesystem model

The resolver reads, under the issues root: the directory listing, and per
candidate directory `d` the files `d/issue-data.json`, `d/digest.md`, the
listing and contents of `d/papers/`, and the listing of
`d/assets/figures/`.  A `DirEntry` is one candidate directory together with
the contents of those files; `none` models an absent file or directory, and
for the snapshot file the inner `Option Json` is the outcome of
`JSON.parse` (`none` = the parse throws). -/

structure DirEntry where
  name : String
  isDir : Bool
  adapter : Option (Option Json)
  digest : Option String
  papers : Option (List (String × String))
  figures : Option (List String)

structure FileSys where
  issuesDirExists : Bool
  entries : List DirEntry

/-- Path resolution under the issues root: the entry whose directory name is
`date`.  A date that names no entry behaves as a directory with no files
(every `existsSync` under it is false). -/
def findEntry (fs : FileSys) (date : String) : DirEntry :=
  (fs.entries.find? (fun e => e.name == date)).getD ⟨date, false, none, none, none, none⟩

/-- Embedding of `issueDates` (content.ts lines 31-37): directory names matching the
date-key pattern, sorted descending by string comparison.  JS
`Array.prototype.sort` with the comparator `(a, b) => (a < b ? 1 : -1)` is a
stable sort by that comparator, modelled by insertion sort with the
relation `¬ a < b`. -/
def issueDates (fs : FileSys) : List String :=
  if fs.issuesDirExists then
    List.insertionSort (fun a b => jsLt a b = false)
      ((fs.entries.filter (fun e => isDateKey e.name && e.isDir)).map (·.name))
  else []

/-- Read (`fs.readFileSync`) of one paper document (only reached for enumerated
files, which exist). -/
def readPaperFile (fs : FileSys) (date file : String) : String :=
  (((findEntry fs date).papers.getD []).find? (fun p => p.1 == file)).map (·.2) |>.getD ""

/-! ## Paper parser (`content.ts`, `parsePaper`) -/

/-- The characters of the input from the start of the current line (given as
`cs`) to the end of the whole input (the later lines `rest`, rejoined with
their newlines): the text a multiline regex attempt sees from its anchor. -/
def joinRest (cs : List Char) (rest : List String) : List Char :=
  cs ++ rest.foldr (fun r acc => '\n' :: (r.data ++ acc)) []

/-- Attempt of `/^#\s+(.+)$/` at one anchor, given the characters after the
`'#'`.  The greedy `\s+` takes the maximal whitespace run (it may cross
newlines); `(.+)$` then captures the rest of the current line.  When the
whitespace run reaches the end of input the engine backtracks one character:
the capture is the final whitespace character, unless it is a newline (which
`.` cannot match), in which case the attempt fails. -/
def tryH1 (cs : List Char) : Option String :=
  let ws := cs.takeWhile jsWsChar
  if ws.isEmpty then none
  else
    match cs.dropWhile jsWsChar with
    | [] =>
      match ws.getLast? with
      | some c => if c == '\n' then none else some ⟨[c]⟩
      | none => none
    | rest => some ⟨rest.takeWhile (fun c => c != '\n')⟩

/-- Multiline scan of `body.match(/^#\s+(.+)$/m)`: the anchors of `^` with
the `m` flag are exactly the line starts, visited in order; at a line
starting with `'#'` the attempt `tryH1` runs on everything after the `'#'`
up to the end of the whole input. -/
def matchH1Lines : List String → Option String
  | [] => none
  | l :: rest =>
    match l.data with
    | '#' :: cs =>
      match tryH1 (joinRest cs rest) with
      | some cap => some cap
      | none => matchH1Lines rest
    | _ => matchH1Lines rest

/-- Capture `body.match(/^#\s+(.+)$/m)?.[1]` of the first line-anchored
level-1 heading match. -/
def matchH1 (body : String) : Option String := matchH1Lines (splitNl body)

/-- The capture `(.+?)"?$` (lazy) within the current line: the rest of the
line, with a trailing double quote given to the optional `"?` whenever the
capture stays non-empty; fails on an empty line remainder. -/
def captureLazyQuote (cs : List Char) : Option String :=
  let seg := cs.takeWhile (fun c => c != '\n')
  if seg.isEmpty then none
  else if seg.getLast? == some '"' && decide (2 ≤ seg.length) then some ⟨seg.dropLast⟩
  else some ⟨seg⟩

/-- Attempt of `/^title:\s*"?(.+?)"?$/` at one anchor, given the characters
after `"title:"`.  Mirrors `tryH1` for the `\s*` run, then consumes one
optional leading double quote (backtracking to not consume it when the
remainder of the line would be empty). -/
def tryTitle (cs : List Char) : Option String :=
  let ws := cs.takeWhile jsWsChar
  match cs.dropWhile jsWsChar with
  | [] =>
    match ws.getLast? with
    | some c => if c == '\n' then none else some ⟨[c]⟩
    | none => none
  | '"' :: rest2 =>
    match captureLazyQuote rest2 with
    | some cap => some cap
    | none => captureLazyQuote ('"' :: rest2)
  | rest => captureLazyQuote rest

/-- Multiline scan of `digest.match(/^title:\s*"?(.+?)"?$/m)`: line starts
visited in order; at a line starting with `"title:"` the attempt `tryTitle`
runs on everything after that prefix up to the end of the whole input. -/
def matchTitleLines : List String → Option String
  | [] => none
  | l :: rest =>
    if "title:".data.isPrefixOf l.data then
      match tryTitle (joinRest (l.data.drop 6) rest) with
      | some cap => some cap
      | none => matchTitleLines rest
    else matchTitleLines rest

/-- Capture `digest.match(/^title:\s*"?(.+?)"?$/m)?.[1]` (content.ts line 88). -/
def matchTitle (digest : String) : Option String := matchTitleLines (splitNl digest)

/-- The summary predicate of `parsePaper` (content.ts line 49): a trimmed
line is kept when it is non-empty and starts with neither `"#"` nor
`"-"`. -/
def summaryPred (l : String) : Bool :=
  l != "" && !(jsStartsWith l "#") && !(jsStartsWith l "-")

/-- Embedding of `parsePaper` (content.ts lines 39-74), with the filesystem reads made
explicit: the document text comes from `readPaperFile`, the figure listing
from the entry's `assets/figures` directory. -/
def parsePaper (fs : FileSys) (date file : String) : Paper :=
  let id := if jsEndsWith file ".md" then jsDropRight file 3 else file
  let raw := readPaperFile fs date file
  let fm := parseFrontMatter raw
  let title := jsOr (recordGet fm.data "title") (jsOr (matchH1 fm.body) id)
  let authors := jsOr (recordGet fm.data "authors") "Unknown authors"
  let summary := jsOr (((splitNl fm.body).map jsTrim).find? summaryPred) "No summary."
  let tagsRaw := jsOr (recordGet fm.data "tags") ""
  let tags :=
    ((splitOnChar ',' (tagsRaw.data.filter (fun c => c != '[' && c != ']'))).map
        (fun piece => stripQuotes (jsTrim ⟨piece⟩))).filter (fun t => t != "")
  let image :=
    match (findEntry fs date).figures with
    | some names =>
      (names.find? (fun n => jsStartsWith n (id ++ "."))).map
        (fun found => "/issues/" ++ date ++ "/assets/figures/" ++ found)
    | none => none
  { id := id, title := title, authors := authors, summary := summary, tags := tags,
    url := jsOr (recordGet fm.data "url") (jsOr (recordGet fm.data "link") ""),
    markdown := jsTrim fm.body, image := image }

/-! ## Issue resolver (`content.ts`, `parseIssueFromFs` / `parseIssueFromAdapter` / `getIssues`) -/

/-- Embedding of `parseIssueFromFs` (content.ts lines 76-90).  `paperFiles.sort()` is the
default (ascending lexicographic) JS sort, modelled by insertion sort with
the relation `¬ b < a`. -/
def parseIssueFromFs (fs : FileSys) (date : String) : Issue :=
  let e := findEntry fs date
  let digest := e.digest.getD ""
  let paperFiles :=
    match e.papers with
    | some files =>
      List.insertionSort (fun a b => jsLt b a = false)
        ((files.map (fun p : String × String => p.1)).filter (fun n => jsEndsWith n ".md"))
    | none => []
  { date := date,
    title := jsOr (matchTitle digest) ("AI Daily " ++ date),
    digest := some digest,
    papers := paperFiles.map (parsePaper fs date) }

set_option linter.unusedVariables false in
/-- Embedding of `parseIssueFromAdapter` (content.ts lines 92-100).  Its argument is the
outcome of `JSON.parse(raw)`: `none` when the parse throws (the `catch`
branch).  The accepted value is returned verbatim (the source's unchecked
`as Issue` cast). -/
def parseIssueFromAdapter (date : String) (parsed : Option Json) : Option Json :=
  match parsed with
  | none => none
  | some p =>
    if !(p.get "date").truthy || !(p.get "papers").isArray then none else some p

/-- The per-date body of `getIssues` (content.ts lines 103-110): prefer the
structured snapshot when the file exists and the adapter accepts it, fall
back to the raw-parse path otherwise. -/
def resolveDate (fs : FileSys) (date : String) : IssueVal :=
  match (findEntry fs date).adapter with
  | some rawParse =>
    match parseIssueFromAdapter date rawParse with
    | some adapted => .fromAdapter adapted
    | none => .fromFs (parseIssueFromFs fs date)
  | none => .fromFs (parseIssueFromFs fs date)

/-- Embedding of `getIssues` (content.ts lines 102-111). -/
def getIssues (fs : FileSys) : List IssueVal :=
  (issueDates fs).map (resolveDate fs)

/-! ## Digest sectionizer (`digest.ts`) -/

/-- The result record of `parseDigest`; focus entries are
`{ title, text }` pairs. -/
structure DigestSections where
  highlights : List String
  trends : List String
  focus : List (String × String)
  deriving Repr, DecidableEq

/-- First stage of `clean` (digest.ts line 11): strip one leading list marker
(`/^[-*]\s*/`), then one leading numbered marker (`/^\d+\.\s*/`), then one
leading quote marker (`/^>\s*/`), then trim. -/
def stripListMarkChars (cs : List Char) : List Char :=
  match cs with
  | c :: rest => if c == '-' || c == '*' then rest.dropWhile jsWsChar else cs
  | [] => []

/-- Removal of `/^\d+\.\s*/`: a maximal leading digit run followed by a literal
dot (the only way `\d+\.` can match), and the whitespace after it. -/
def stripNumMarkChars (cs : List Char) : List Char :=
  let ds := cs.takeWhile Char.isDigit
  if ds.isEmpty then cs
  else
    match cs.drop ds.length with
    | '.' :: rest => rest.dropWhile jsWsChar
    | _ => cs

/-- Removal of `/^>\s*/`. -/
def stripQuoteMarkChars (cs : List Char) : List Char :=
  match cs with
  | '>' :: rest => rest.dropWhile jsWsChar
  | _ => cs

/-- Embedding of `clean` (digest.ts lines 9-15). -/
def clean (line : String) : String :=
  jsTrim ⟨stripQuoteMarkChars (stripNumMarkChars (stripListMarkChars line.data))⟩

/-- Test `/^\d+\./.test(line)`. -/
def testNumbered (line : String) : Bool :=
  let ds := line.data.takeWhile Char.isDigit
  !ds.isEmpty && (line.data.drop ds.length).head? == some '.'

/-- Test `/^[-*]\s/.test(line)`. -/
def testBulleted (line : String) : Bool :=
  match line.data with
  | c1 :: c2 :: _ => (c1 == '-' || c1 == '*') && jsWsChar c2
  | _ => false

/-- Removal `line.replace(/^###\s*/, "")`. -/
def stripH3Mark (line : String) : String :=
  if jsStartsWith line "###" then ⟨(line.data.drop 3).dropWhile jsWsChar⟩ else line

/-- The state of `parseDigest`'s loop: the mode tag, the in-progress focus
entry, and the three accumulated output lists. -/
inductive DigestMode where
  | none
  | highlight
  | trend
  | focus
  deriving Repr, DecidableEq

structure DigestState where
  mode : DigestMode
  currentFocus : Option (String × String)
  highlights : List String
  trends : List String
  focus : List (String × String)
  deriving Repr, DecidableEq

/-- Flush of the in-progress focus entry
(`if (currentFocus) focus.push(currentFocus)`). -/
def flushFocus (st : DigestState) : List (String × String) :=
  st.focus ++ (match st.currentFocus with | some c => [c] | none => [])

/-- One iteration of the `for (const line0 of lines)` loop of `parseDigest`
(digest.ts lines 28-76). -/
def digestStep (st : DigestState) (line0 : String) : DigestState :=
  let line := jsTrim line0
  if line == "" then st
  else if jsIncludes line "今日亮点" then { st with mode := .highlight }
  else if jsIncludes line "趋势观察" then
    { st with focus := flushFocus st, currentFocus := none, mode := .trend }
  else if jsIncludes line "重点关注" then
    { st with focus := flushFocus st, currentFocus := none, mode := .focus }
  else if jsStartsWith line "---" || jsStartsWith line "|" then st
  else
    match st.mode with
    | .highlight =>
      if jsStartsWith line "##" then st
      else
        let text := clean line
        if text != "" then { st with highlights := st.highlights ++ [text] } else st
    | .trend =>
      if testNumbered line || testBulleted line then
        let text := clean line
        if text != "" then { st with trends := st.trends ++ [text] } else st
      else st
    | .focus =>
      if jsStartsWith line "###" then
        { st with focus := flushFocus st,
                  currentFocus := some (jsTrim (stripH3Mark line), "") }
      else if jsStartsWith line "→" then st
      else
        match st.currentFocus with
        | none => st
        | some (t, txt) =>
          let text := clean line
          if text != "" then
            { st with currentFocus := some (t, if txt != "" then txt ++ " " ++ text else text) }
          else st
    | .none => st

/-- The placeholder highlight synthesized when none was parsed
(digest.ts line 81). -/
def digestPlaceholder : String :=
  "今日核心更新已生成，但摘要段还未结构化。可直接查看下方 topic 速读。"

/-- Embedding of `parseDigest` (digest.ts lines 17-85). -/
def parseDigest (issue : Issue) : DigestSections :=
  let raw := issue.digest.getD ""
  let lines := splitLinesCrLf raw
  let final := lines.foldl digestStep ⟨.none, none, [], [], []⟩
  { highlights := if final.highlights.isEmpty then [digestPlaceholder] else final.highlights,
    trends := final.trends,
    focus := flushFocus final }

/-! ## Markdown block parser (`apps/web/lib/markdown.ts`) -/

/-- The `Block` union of `markdown.ts`. -/
inductive Block where
  | h2 : String → Block
  | h3 : String → Block
  | p : String → Block
  | quote : String → Block
  | callout : String → Block
  | code : String → Block
  | figcaption : String → Block
  | list : List String → Block
  deriving Repr, DecidableEq

/-- Whether a block is a code block. -/
def Block.isCode : Block → Bool
  | .code _ => true
  | _ => false

/-- Replacement `line.replace(/\*\*/g, "")`: all non-overlapping `"**"` occurrences
removed, left to right. -/
def removeBoldMarks : List Char → List Char
  | '*' :: '*' :: rest => removeBoldMarks rest
  | c :: rest => c :: removeBoldMarks rest
  | [] => []

/-- A line whose trim opens or closes a fenced code block
(`lines[i].trim().startsWith("\x60\x60\x60")`). -/
def fenceLine (l : String) : Bool := jsStartsWith (jsTrim l) "```"

/-- A line whose trim is a list item (`lines[i].trim().startsWith("- ")`). -/
def listLine (l : String) : Bool := jsStartsWith (jsTrim l) "- "

/-- The `while (i < lines.length)` loop of `parseBlocks` (markdown.ts lines
10-65), as a recursion over the remaining lines.  The code branch consumes
the interior lines up to the next fence line and skips that fence (`i += 1`
past the end when the fence is unterminated).  The list branch consumes the
maximal run of list lines from the current position; its guard already
states that the current line is a list line, so the scan resumes at
`rest.dropWhile listLine` (the source's `while` from index `i`, whose first
iteration is the guard itself). -/
def parseBlocksGo : List String → List Block
  | [] => []
  | l0 :: rest =>
    let line := jsTrim l0
    if line == "" then parseBlocksGo rest
    else if jsStartsWith line "### " then .h3 (jsDrop line 4) :: parseBlocksGo rest
    else if jsStartsWith line "## " then .h2 (jsDrop line 3) :: parseBlocksGo rest
    else if jsStartsWith line "> [!NOTE]" then
      .callout (jsTrim (jsDrop line 9)) :: parseBlocksGo rest
    else if jsStartsWith line "> " then .quote (jsDrop line 2) :: parseBlocksGo rest
    else if jsStartsWith line "```" then
      .code (joinNl (rest.takeWhile (fun l => !fenceLine l))) ::
        parseBlocksGo ((rest.dropWhile (fun l => !fenceLine l)).drop 1)
    else if jsStartsWith line "*Figure:" then
      .figcaption (jsTrim (jsDrop line 8)) :: parseBlocksGo rest
    else if jsStartsWith line "- " then
      .list (((l0 :: rest).takeWhile listLine).map (fun l => jsDrop (jsTrim l) 2)) ::
        parseBlocksGo (rest.dropWhile listLine)
    else .p ⟨removeBoldMarks line.data⟩ :: parseBlocksGo rest
  termination_by lines => lines.length
  decreasing_by
    all_goals simp only [List.length_cons, List.length_drop]
    all_goals
      first
        | omega
        | (have hle := (List.dropWhile_sublist (fun l => !fenceLine l) (l := rest)).length_le
           omega)
        | (have hle := (List.dropWhile_sublist listLine (l := rest)).length_le
           omega)

/-- Embedding of `parseBlocks` (markdown.ts lines 5-68). -/
def parseBlocks (markdown : String) : List Block :=
  parseBlocksGo (splitNl markdown)

/-- Instrumented copy of `parseBlocksGo` used to state the order-preserving
accounting property: each step records the source lines it consumed next to
the block it emitted (`none` for a skipped blank line).  It follows the
recursion of `parseBlocksGo` step for step. -/
def parseBlocksAnnot : List String → List (Option Block × List String)
  | [] => []
  | l0 :: rest =>
    let line := jsTrim l0
    if line == "" then (none, [l0]) :: parseBlocksAnnot rest
    else if jsStartsWith line "### " then
      (some (.h3 (jsDrop line 4)), [l0]) :: parseBlocksAnnot rest
    else if jsStartsWith line "## " then
      (some (.h2 (jsDrop line 3)), [l0]) :: parseBlocksAnnot rest
    else if jsStartsWith line "> [!NOTE]" then
      (some (.callout (jsTrim (jsDrop line 9))), [l0]) :: parseBlocksAnnot rest
    else if jsStartsWith line "> " then
      (some (.quote (jsDrop line 2)), [l0]) :: parseBlocksAnnot rest
    else if jsStartsWith line "```" then
      (some (.code (joinNl (rest.takeWhile (fun l => !fenceLine l)))),
        l0 :: (rest.takeWhile (fun l => !fenceLine l) ++
          (rest.dropWhile (fun l => !fenceLine l)).take 1)) ::
        parseBlocksAnnot ((rest.dropWhile (fun l => !fenceLine l)).drop 1)
    else if jsStartsWith line "*Figure:" then
      (some (.figcaption (jsTrim (jsDrop line 8))), [l0]) :: parseBlocksAnnot rest
    else if jsStartsWith line "- " then
      (some (.list (((l0 :: rest).takeWhile listLine).map (fun l => jsDrop (jsTrim l) 2))),
        l0 :: rest.takeWhile listLine) ::
        parseBlocksAnnot (rest.dropWhile listLine)
    else (some (.p ⟨removeBoldMarks line.data⟩), [l0]) :: parseBlocksAnnot rest
  termination_by lines => lines.length
  decreasing_by
    all_goals simp only [List.length_cons, List.length_drop]
    all_goals
      first
        | omega
        | (have hle := (List.dropWhile_sublist (fun l => !fenceLine l) (l := rest)).length_le
           omega)
        | (have hle := (List.dropWhile_sublist listLine (l := rest)).length_le
           omega)

/-! ## Claim-side definitions

These definitions follow the wording of the specification (not the source);
the theorems below compare them with the source embedding. -/

/-- Acceptance condition for a structured snapshot as the specification's
amended wording has it: the snapshot text parsed, the parsed value's `date`
property is truthy, and its `papers` property is an array. -/
def claimAccepts (parsed : Option Json) : Bool :=
  match parsed with
  | some j => (j.get "date").truthy && (j.get "papers").isArray
  | none => false

/-- The summary field as the specification words it: the first non-empty
body line, trimmed, that does not begin with a heading marker (`"#"`) or a
list marker (`"-"`); the literal placeholder when no such line exists. -/
def claimSummary (body : String) : String :=
  (((splitNl body).map jsTrim).find?
      (fun l => l != "" && !(jsStartsWith l "#") && !(jsStartsWith l "-"))).getD
    "No summary."

/-! ## Helper lemmas -/

/-- A scan that meets no closing-fence line reports `end === -1`. -/
theorem fmLoop_eq_none (lines : List String) :
    ∀ data, (∀ l ∈ lines, jsTrim l ≠ "---") → fmLoop lines data = none := by
  induction lines with
  | nil => intro data _; rfl
  | cons l rest ih =>
    intro data h
    have hl : jsTrim l ≠ "---" := h l (List.mem_cons_self l rest)
    have hl' : (jsTrim l == "---") = false := beq_eq_false_iff_ne.mpr hl
    simp only [fmLoop, hl', Bool.false_eq_true, if_false]
    exact ih _ (fun x hx => h x (List.mem_cons_of_mem l hx))

/-- The fallback `jsOr` of a found element agrees with `Option.getD` when the found
element is non-empty. -/
theorem jsOr_eq_getD (o : Option String) (d : String)
    (h : ∀ s, o = some s → s ≠ "") : jsOr o d = o.getD d := by
  cases o with
  | none => rfl
  | some s =>
    have : (s == "") = false := beq_eq_false_iff_ne.mpr (h s rfl)
    simp [jsOr, this]

/-! ## C3: the digest sectionizer is total and `highlights` is never empty -/

/-- C3.  `parseDigest` is a total Lean function (it is defined for every
`Issue`, in particular for every digest string including the empty one, and
can raise nothing), and the `highlights` list it returns is never empty:
when the scan collected no highlight, the synthesized placeholder string is
inserted. -/
theorem parseDigest_highlights_ne_nil (issue : Issue) :
    (parseDigest issue).highlights ≠ [] := by
  unfold parseDigest
  dsimp only
  split
  · simp
  · rename_i h
    simpa [List.isEmpty_iff] using h

/-! ## C4: missing opening or closing fence falls back to the whole text -/

/-- C4.  If the document does not begin with `"---\n"`, or no line after
the first trims to `"---"` (no closing fence), the front-matter splitter
returns the empty mapping and the original text unchanged as the body. -/
theorem parseFrontMatter_fallback (raw : String)
    (h : jsStartsWith raw "---\n" = false ∨
      ∀ l ∈ (splitNl raw).drop 1, jsTrim l ≠ "---") :
    parseFrontMatter raw = ⟨[], raw⟩ := by
  rcases h with h | h
  · simp [parseFrontMatter, h]
  · by_cases hs : jsStartsWith raw "---\n" = true
    · simp only [parseFrontMatter, hs, if_true]
      rw [fmLoop_eq_none _ _ h]
    · simp [parseFrontMatter, Bool.eq_false_iff.mpr hs]

/-- Witness for C4 at a document with an opening fence but no closing
fence. -/
theorem parseFrontMatter_fallback_witness :
    parseFrontMatter "---\ntitle: x\nunclosed" = ⟨[], "---\ntitle: x\nunclosed"⟩ :=
  parseFrontMatter_fallback _ (Or.inr (by decide))

/-! ## C10: the opening fence is recognized only at offset zero with a newline -/

/-- C10.  The splitter recognizes a header only when the document starts,
at offset zero, with `"---"` immediately followed by `'\n'`: any other
document (in particular the bare string `"---"`, or one with any character
before the fence) yields the empty mapping and the whole text as body. -/
theorem parseFrontMatter_fence_exact (raw : String)
    (h : jsStartsWith raw "---\n" = false) :
    parseFrontMatter raw = ⟨[], raw⟩ := by
  simp [parseFrontMatter, h]

/-- Witness for C10: the two documents singled out by the claim — a
document that is exactly `"---"` with no trailing newline, and one with a
leading space before the fence. -/
theorem parseFrontMatter_fence_exact_witness :
    jsStartsWith "---" "---\n" = false ∧ parseFrontMatter "---" = ⟨[], "---"⟩ ∧
      jsStartsWith " ---\ntitle: x\n---\nbody" "---\n" = false ∧
      parseFrontMatter " ---\ntitle: x\n---\nbody" = ⟨[], " ---\ntitle: x\n---\nbody"⟩ :=
  ⟨by decide, parseFrontMatter_fence_exact _ (by decide), by decide,
    parseFrontMatter_fence_exact _ (by decide)⟩

/-! ## C5: the summary field and its non-emptiness -/

/-- C5.  The summary produced by `parsePaper` is exactly the
specification's description (`claimSummary` of the front-matter body: first
non-empty trimmed line starting with neither `"#"` nor `"-"`, placeholder
`"No summary."` otherwise), and it is never the empty string. -/
theorem parsePaper_summary (fs : FileSys) (date file : String) :
    (parsePaper fs date file).summary
        = claimSummary (parseFrontMatter (readPaperFile fs date file)).body ∧
      (parsePaper fs date file).summary ≠ "" := by
  have hfound : ∀ s,
      (((splitNl (parseFrontMatter (readPaperFile fs date file)).body).map jsTrim).find?
          summaryPred) = some s → s ≠ "" := by
    intro s hs
    have hp := List.find?_some hs
    intro he
    rw [he] at hp
    simp [summaryPred] at hp
  constructor
  · show jsOr _ "No summary." = _
    rw [jsOr_eq_getD _ _ hfound]
    rfl
  · show jsOr _ "No summary." ≠ ""
    rcases hf : (((splitNl (parseFrontMatter (readPaperFile fs date file)).body).map
        jsTrim).find? summaryPred) with _ | s
    · decide
    · have hne := hfound s hf
      simpa [jsOr, beq_eq_false_iff_ne.mpr hne] using hne

/-! ## C8: highlight-mode line handling -/

/-- Counterexample to C8 as stated.  The in-highlights branch skips only
lines starting with two hash characters, not every heading-marker line: on
the digest `"## 今日亮点\n# Solo\n-"` the level-1 heading line `"# Solo"` —
which starts with the heading marker `"#"` — is not skipped but cleaned and
appended verbatim, and the non-empty line `"-"` (whose cleaned text is
empty) is not appended, so the returned highlights are exactly
`["# Solo"]`. -/
theorem digest_highlight_hash_kept :
    (parseDigest ⟨"2026-02-12", "t", some "## 今日亮点\n# Solo\n-", []⟩).highlights
        = ["# Solo"]
      ∧ jsStartsWith (jsTrim "# Solo") "#" = true
      ∧ jsTrim "-" ≠ "" := by
  refine ⟨by decide, by decide, by decide⟩

/-- C8 as amended.  While in the in-highlights state, a line whose trim
starts with `"##"` is skipped; every other non-empty, non-marker,
non-table, non-rule line is cleaned of leading list/number/quote markers
and appended to highlights when the cleaned text is non-empty (and dropped
when cleaning leaves nothing). -/
theorem digestStep_highlight_mode (st : DigestState) (line0 : String)
    (hm : st.mode = .highlight)
    (h1 : jsTrim line0 ≠ "")
    (h2 : jsIncludes (jsTrim line0) "今日亮点" = false)
    (h3 : jsIncludes (jsTrim line0) "趋势观察" = false)
    (h4 : jsIncludes (jsTrim line0) "重点关注" = false)
    (h5 : jsStartsWith (jsTrim line0) "---" = false)
    (h6 : jsStartsWith (jsTrim line0) "|" = false) :
    digestStep st line0 =
      if jsStartsWith (jsTrim line0) "##" = true then st
      else if clean (jsTrim line0) ≠ "" then
        { st with highlights := st.highlights ++ [clean (jsTrim line0)] }
      else st := by
  have h1' : (jsTrim line0 == "") = false := beq_eq_false_iff_ne.mpr h1
  by_cases hs : jsStartsWith (jsTrim line0) "##" = true
  · simp [digestStep, h1', h2, h3, h4, h5, h6, hm, hs]
  · have hsf : jsStartsWith (jsTrim line0) "##" = false := Bool.eq_false_iff.mpr hs
    by_cases hc : clean (jsTrim line0) = ""
    · simp [digestStep, h1', h2, h3, h4, h5, h6, hm, hsf, hc]
    · simp [digestStep, h1', h2, h3, h4, h5, h6, hm, hsf, hc, bne_iff_ne]

/-- Witness for C8 (amended): a bulleted line in highlight mode is cleaned
and appended. -/
theorem digestStep_highlight_mode_witness :
    digestStep ⟨.highlight, none, ["prev"], [], []⟩ "- item"
      = ⟨.highlight, none, ["prev", "item"], [], []⟩ := by
  rw [digestStep_highlight_mode _ _ rfl (by decide) (by decide) (by decide) (by decide)
    (by decide) (by decide)]
  decide

/-! ## C9: table rows and rules in every state -/

/-- Counterexample to C9 as stated.  A table row is not ignored in every
state: the section-marker checks run first, so the table row
`"| 今日亮点 |"` switches the machine into highlight mode (and on the digest
`"| 今日亮点 |\nfoo"` the following plain line lands in highlights instead
of the placeholder that an ignored table row would have produced). -/
theorem digest_table_marker_changes_state :
    digestStep ⟨.none, none, [], [], []⟩ "| 今日亮点 |"
        = ⟨.highlight, none, [], [], []⟩
      ∧ jsStartsWith (jsTrim "| 今日亮点 |") "|" = true
      ∧ (parseDigest ⟨"2026-02-12", "t", some "| 今日亮点 |\nfoo", []⟩).highlights
        = ["foo"] := by
  refine ⟨by decide, by decide, by decide⟩

/-- C9 as amended.  A table row or horizontal-rule line that does not
contain a section-marker substring is ignored in every state: it changes
nothing at all (neither the mode, nor any output list, nor the in-progress
focus entry). -/
theorem digestStep_table_rule_ignored (st : DigestState) (line0 : String)
    (h : jsStartsWith (jsTrim line0) "---" = true ∨ jsStartsWith (jsTrim line0) "|" = true)
    (h2 : jsIncludes (jsTrim line0) "今日亮点" = false)
    (h3 : jsIncludes (jsTrim line0) "趋势观察" = false)
    (h4 : jsIncludes (jsTrim line0) "重点关注" = false) :
    digestStep st line0 = st := by
  have h1 : (jsTrim line0 == "") = false := by
    rcases h with h | h <;>
    · refine beq_eq_false_iff_ne.mpr (fun he => ?_)
      rw [he] at h
      exact absurd h (by decide)
  have hor : (jsStartsWith (jsTrim line0) "---" || jsStartsWith (jsTrim line0) "|") = true := by
    rcases h with h | h <;> simp [h]
  simp [digestStep, h1, h2, h3, h4, hor]

/-- Witness for C9 (amended): a marker-free table row leaves an arbitrary
concrete state untouched. -/
theorem digestStep_table_rule_ignored_witness :
    digestStep ⟨.trend, some ("a", "b"), ["h"], ["t"], [("f", "x")]⟩ " | cell | "
      = ⟨.trend, some ("a", "b"), ["h"], ["t"], [("f", "x")]⟩ :=
  digestStep_table_rule_ignored _ _ (Or.inr (by decide)) (by decide) (by decide) (by decide)

/-! ## C1: snapshot acceptance and silent fallback -/

/-- Inversion of the adapter's acceptance: a returned snapshot is exactly
the parsed value, with a truthy `date` and an array `papers`. -/
theorem parseIssueFromAdapter_some (date : String) (parsed : Option Json) (j : Json)
    (h : parseIssueFromAdapter date parsed = some j) :
    parsed = some j ∧ (j.get "date").truthy = true ∧ (j.get "papers").isArray = true := by
  cases parsed with
  | none => exact absurd h (by simp [parseIssueFromAdapter])
  | some p =>
    by_cases hd : (p.get "date").truthy = true
    · by_cases hp : (p.get "papers").isArray = true
      · have : p = j := by simpa [parseIssueFromAdapter, hd, hp] using h
        subst this
        exact ⟨rfl, hd, hp⟩
      · have hp' : (p.get "papers").isArray = false := Bool.eq_false_iff.mpr hp
        exact absurd h (by simp [parseIssueFromAdapter, hd, hp'])
    · have hd' : (p.get "date").truthy = false := Bool.eq_false_iff.mpr hd
      exact absurd h (by simp [parseIssueFromAdapter, hd'])

/-- Counterexample to C1 as stated.  The resolver never compares the
snapshot's `date` field with the requested date: a snapshot whose `date`
("1999-01-01") differs from the requested directory date ("2026-02-12") is
still accepted and returned — not replaced by the raw-parse fallback — as
long as the field is truthy and `papers` is an array. -/
theorem adapter_accepts_mismatched_date :
    resolveDate
        ⟨true, [⟨"2026-02-12", true,
          some (some (.obj [("date", .str "1999-01-01"), ("papers", .arr [])])),
          none, none, none⟩]⟩ "2026-02-12"
        = .fromAdapter (.obj [("date", .str "1999-01-01"), ("papers", .arr [])])
      ∧ (Json.obj [("date", .str "1999-01-01"), ("papers", .arr [])]).get "date"
        = .str "1999-01-01"
      ∧ "1999-01-01" ≠ "2026-02-12"
      ∧ resolveDate
          ⟨true, [⟨"2026-02-12", true,
            some (some (.obj [("date", .str "1999-01-01"), ("papers", .arr [])])),
            none, none, none⟩]⟩ "2026-02-12"
        ≠ .fromFs (parseIssueFromFs
            ⟨true, [⟨"2026-02-12", true,
              some (some (.obj [("date", .str "1999-01-01"), ("papers", .arr [])])),
              none, none, none⟩]⟩ "2026-02-12") := by
  refine ⟨rfl, rfl, by decide, ?_⟩
  rw [show resolveDate
      ⟨true, [⟨"2026-02-12", true,
        some (some (.obj [("date", .str "1999-01-01"), ("papers", .arr [])])),
        none, none, none⟩]⟩ "2026-02-12"
      = .fromAdapter (.obj [("date", .str "1999-01-01"), ("papers", .arr [])]) from rfl]
  intro h
  exact IssueVal.noConfusion h

/-- C1 as amended.  For every filesystem state and requested date the
resolver either accepts the structured snapshot — exactly when it parsed
and the parsed value has a truthy (non-empty) `date` field, never compared
against the requested date, and an array-valued `papers` field — and
returns it verbatim, or it returns precisely the raw directory-walk
fallback for that date; a snapshot failure (absent file, parse error, shape
mismatch) is never surfaced: the result is the fallback issue, not an
error. -/
theorem resolveDate_snapshot_or_fallback (fs : FileSys) (date : String) :
    (∃ j, ((findEntry fs date).adapter).join = some j ∧ claimAccepts (some j) = true ∧
        resolveDate fs date = .fromAdapter j) ∨
      (claimAccepts ((findEntry fs date).adapter).join = false ∧
        resolveDate fs date = .fromFs (parseIssueFromFs fs date)) := by
  unfold resolveDate
  cases hA : (findEntry fs date).adapter with
  | none => exact Or.inr ⟨by simp [Option.join, claimAccepts], rfl⟩
  | some parsed =>
    cases parsed with
    | none =>
      exact Or.inr ⟨by simp [Option.join, claimAccepts], by simp [parseIssueFromAdapter]⟩
    | some p =>
      by_cases hd : (p.get "date").truthy = true
      · by_cases hp : (p.get "papers").isArray = true
        · refine Or.inl ⟨p, by simp [Option.join], by simp [claimAccepts, hd, hp], ?_⟩
          simp [parseIssueFromAdapter, hd, hp]
        · have hp' : (p.get "papers").isArray = false := Bool.eq_false_iff.mpr hp
          refine Or.inr ⟨by simp [Option.join, claimAccepts, hp'], ?_⟩
          simp [parseIssueFromAdapter, hd, hp']
      · have hd' : (p.get "date").truthy = false := Bool.eq_false_iff.mpr hd
        refine Or.inr ⟨by simp [Option.join, claimAccepts, hd'], ?_⟩
        simp [parseIssueFromAdapter, hd']

/-! ## C2: distinctness of date keys in one resolution -/

/-- Counterexample to C2 as stated.  Because an accepted snapshot's `date`
field is returned verbatim and never compared with its directory name, a
snapshot in directory `2026-02-12` carrying date `2026-02-11` collides with
the raw-parsed issue of directory `2026-02-11`: one `getIssues` call
returns two issues whose date fields are both `"2026-02-11"`. -/
theorem getIssues_duplicate_date :
    ((getIssues ⟨true,
        [⟨"2026-02-12", true,
            some (some (.obj [("date", .str "2026-02-11"), ("papers", .arr [])])),
            none, none, none⟩,
          ⟨"2026-02-11", true, none, none, none, none⟩]⟩).map IssueVal.dateVal)
        = [.str "2026-02-11", .str "2026-02-11"]
      ∧ ¬ (getIssues ⟨true,
          [⟨"2026-02-12", true,
              some (some (.obj [("date", .str "2026-02-11"), ("papers", .arr [])])),
              none, none, none⟩,
            ⟨"2026-02-11", true, none, none, none, none⟩]⟩).Pairwise
          (fun a b => a.dateVal ≠ b.dateVal) := by
  constructor
  · rfl
  · intro h
    rw [show getIssues ⟨true,
        [⟨"2026-02-12", true,
            some (some (.obj [("date", .str "2026-02-11"), ("papers", .arr [])])),
            none, none, none⟩,
          ⟨"2026-02-11", true, none, none, none, none⟩]⟩
        = [.fromAdapter (.obj [("date", .str "2026-02-11"), ("papers", .arr [])]),
            .fromFs ⟨"2026-02-11", "AI Daily 2026-02-11", some "", []⟩] from rfl] at h
    exact (List.pairwise_cons.mp h).1 _ (List.mem_cons_self _ _) rfl

/-- C2 as amended.  If the directory listing has no duplicate names (as a
real `readdirSync` guarantees) and every accepted snapshot's `date` field
equals its directory name, then no two issues returned by one `getIssues`
call share a date: the date fields are pairwise distinct. -/
theorem getIssues_dates_distinct (fs : FileSys)
    (hnd : (fs.entries.map DirEntry.name).Nodup)
    (hok : ∀ e ∈ fs.entries, ∀ j : Json, e.adapter = some (some j) →
      ((j.get "date").truthy && (j.get "papers").isArray) = true →
      j.get "date" = .str e.name) :
    (getIssues fs).Pairwise (fun a b => a.dateVal ≠ b.dateVal) := by
  have hdv : ∀ d ∈ issueDates fs, (resolveDate fs d).dateVal = .str d := by
    intro d _
    unfold resolveDate
    cases hA : (findEntry fs d).adapter with
    | none => rfl
    | some parsed =>
      show (match parseIssueFromAdapter d parsed with
        | some adapted => IssueVal.fromAdapter adapted
        | none => IssueVal.fromFs (parseIssueFromFs fs d)).dateVal = .str d
      cases hP : parseIssueFromAdapter d parsed with
      | none => rfl
      | some j =>
        obtain ⟨hpj, hdj, hpp⟩ := parseIssueFromAdapter_some d parsed j hP
        cases hF : fs.entries.find? (fun e => e.name == d) with
        | none =>
          rw [findEntry, hF] at hA
          exact absurd hA (by simp)
        | some e =>
          have he : e ∈ fs.entries := List.mem_of_find?_eq_some hF
          have hname : e.name = d := by simpa using List.find?_some hF
          have hEA : e.adapter = some (some j) := by
            rw [findEntry, hF] at hA
            simp only [Option.getD_some] at hA
            rw [hA, hpj]
          have hjd := hok e he j hEA (by simp [hdj, hpp])
          show (j.get "date") = .str d
          rw [hjd, hname]
  have hnodup : (issueDates fs).Nodup := by
    unfold issueDates
    split
    · refine (List.perm_insertionSort _ _).symm.nodup ?_
      exact ((List.filter_sublist fs.entries).map DirEntry.name).nodup hnd
    · exact List.nodup_nil
  rw [getIssues, List.pairwise_map]
  refine List.Pairwise.imp_of_mem ?_ hnodup
  intro a b ha hb hne
  rw [hdv a ha, hdv b hb]
  simp only [ne_eq, Json.str.injEq]
  exact hne

/-- Witness for C2 (amended): two snapshot-free directories resolve to
pairwise distinct dates. -/
theorem getIssues_dates_distinct_witness :
    (getIssues ⟨true, [⟨"2026-02-12", true, none, none, none, none⟩,
        ⟨"2026-02-11", true, none, none, none, none⟩]⟩).Pairwise
      (fun a b => a.dateVal ≠ b.dateVal) := by
  refine getIssues_dates_distinct _ (by decide) ?_
  intro e he j hj _
  cases he with
  | head => exact Option.noConfusion hj
  | tail _ he2 =>
    cases he2 with
    | head => exact Option.noConfusion hj
    | tail _ he3 => cases he3

/-! ## C6: unterminated code fences -/

/-- A fence line trims to a string starting with a backtick, so every
branch guard of `parseBlocksGo` that `parseBlocksGo` tests before the fence
guard — and the list-line guard — is false for it. -/
theorem fence_excludes (f : String) (hf : fenceLine f = true) :
    (jsTrim f == "") = false ∧
      jsStartsWith (jsTrim f) "### " = false ∧
      jsStartsWith (jsTrim f) "## " = false ∧
      jsStartsWith (jsTrim f) "> [!NOTE]" = false ∧
      jsStartsWith (jsTrim f) "> " = false ∧
      listLine f = false := by
  have hf' : ('`' :: '`' :: '`' :: []).isPrefixOf (jsTrim f).data = true := hf
  cases hd : (jsTrim f).data with
  | nil => rw [hd] at hf'; exact absurd hf' (by decide)
  | cons c tl =>
    rw [hd] at hf'
    have hc : c = '`' := by
      simp [List.isPrefixOf] at hf'
      exact hf'.1.symm
    subst hc
    refine ⟨?_, ?_, ?_, ?_, ?_, ?_⟩
    · refine beq_eq_false_iff_ne.mpr (fun he => ?_)
      rw [he] at hd
      exact List.noConfusion (show ([] : List Char) = '`' :: tl from hd)
    · show ("### ".data).isPrefixOf (jsTrim f).data = false
      rw [hd]; rfl
    · show ("## ".data).isPrefixOf (jsTrim f).data = false
      rw [hd]; rfl
    · show ("> [!NOTE]".data).isPrefixOf (jsTrim f).data = false
      rw [hd]; rfl
    · show ("> ".data).isPrefixOf (jsTrim f).data = false
      rw [hd]; rfl
    · show ("- ".data).isPrefixOf (jsTrim f).data = false
      rw [hd]; rfl

/-- A list all of whose elements satisfy the predicate is kept by `takeWhile`. -/
theorem takeWhile_all {α} (p : α → Bool) (l : List α) (h : ∀ x ∈ l, p x = true) :
    l.takeWhile p = l := by
  induction l with
  | nil => rfl
  | cons x xs ih =>
    rw [List.takeWhile_cons, if_pos (h x (List.mem_cons_self x xs))]
    rw [ih (fun y hy => h y (List.mem_cons_of_mem x hy))]

/-- A list all of whose elements satisfy the predicate is emptied by `dropWhile`. -/
theorem dropWhile_nil_all {α} (p : α → Bool) (l : List α) (h : ∀ x ∈ l, p x = true) :
    l.dropWhile p = [] := by
  induction l with
  | nil => rfl
  | cons x xs ih =>
    rw [List.dropWhile_cons, if_pos (h x (List.mem_cons_self x xs))]
    exact ih (fun y hy => h y (List.mem_cons_of_mem x hy))

/-- A `dropWhile` scan stops at an element the predicate rejects. -/
theorem dropWhile_append_mid {α} (p : α → Bool) (xs : List α) (f : α) (ys : List α)
    (hf : p f = false) :
    List.dropWhile p (xs ++ f :: ys) = List.dropWhile p xs ++ f :: ys := by
  induction xs with
  | nil => simp [List.dropWhile_cons, hf]
  | cons x xs ih =>
    by_cases hx : p x = true
    · simp [List.dropWhile_cons, hx, ih]
    · simp [List.dropWhile_cons, Bool.eq_false_iff.mpr hx]

/-- A `takeWhile` scan never reaches past an element the predicate rejects. -/
theorem takeWhile_append_mid {α} (p : α → Bool) (xs : List α) (f : α) (ys : List α)
    (hf : p f = false) :
    List.takeWhile p (xs ++ f :: ys) = List.takeWhile p xs := by
  induction xs with
  | nil => simp [List.takeWhile_cons, hf]
  | cons x xs ih =>
    by_cases hx : p x = true
    · simp [List.takeWhile_cons, hx, ih]
    · simp [List.takeWhile_cons, Bool.eq_false_iff.mpr hx]

/-- The parse of a fence line followed only by non-fence lines: one code
block holding all remaining lines. -/
theorem parseBlocksGo_fence_base (f : String) (post : List String)
    (hf : fenceLine f = true) (hpost : ∀ l ∈ post, fenceLine l = false) :
    parseBlocksGo (f :: post) = [Block.code (joinNl post)] := by
  obtain ⟨hb, h3, h2, hc, hq, _⟩ := fence_excludes f hf
  have hfence : jsStartsWith (jsTrim f) "```" = true := hf
  have ht : post.takeWhile (fun l => !fenceLine l) = post :=
    takeWhile_all _ _ (fun x hx => by rw [hpost x hx]; rfl)
  have hd : post.dropWhile (fun l => !fenceLine l) = [] :=
    dropWhile_nil_all _ _ (fun x hx => by rw [hpost x hx]; rfl)
  rw [parseBlocksGo]
  simp only [hb, h3, h2, hc, hq, hfence, Bool.false_eq_true, if_false, if_true, ht, hd]
  rw [show List.drop 1 ([] : List String) = [] from rfl, parseBlocksGo]

/-- The scan of any prefix of non-fence lines, followed by one fence line
and only non-fence lines, emits exactly one code block: the joined tail
after the fence. -/
theorem parseBlocksGo_one_fence : ∀ (n : Nat) (pre : List String), pre.length ≤ n →
    ∀ (f : String) (post : List String), (∀ l ∈ pre, fenceLine l = false) →
    fenceLine f = true → (∀ l ∈ post, fenceLine l = false) →
    (parseBlocksGo (pre ++ f :: post)).filter Block.isCode
      = [Block.code (joinNl post)] := by
  intro n
  induction n with
  | zero =>
    intro pre hlen f post hpre hf hpost
    rw [List.eq_nil_of_length_eq_zero (Nat.le_zero.mp hlen)]
    rw [List.nil_append, parseBlocksGo_fence_base f post hf hpost]
    rfl
  | succ n ih =>
    intro pre hlen f post hpre hf hpost
    cases pre with
    | nil =>
      rw [List.nil_append, parseBlocksGo_fence_base f post hf hpost]
      rfl
    | cons l0 pre' =>
      have hl0 : fenceLine l0 = false := hpre l0 (List.mem_cons_self _ _)
      have hpre' : ∀ l ∈ pre', fenceLine l = false :=
        fun l hl => hpre l (List.mem_cons_of_mem _ hl)
      have hlen' : pre'.length ≤ n := Nat.le_of_succ_le_succ hlen
      have htail := ih pre' hlen' f post hpre' hf hpost
      rw [List.cons_append, parseBlocksGo]
      by_cases hb : (jsTrim l0 == "") = true
      · simpa [hb] using htail
      · rw [if_neg (by simpa using hb)]
        by_cases g3 : jsStartsWith (jsTrim l0) "### " = true
        · rw [if_pos g3]
          simpa [Block.isCode] using htail
        · rw [if_neg (by simpa using g3)]
          by_cases g2 : jsStartsWith (jsTrim l0) "## " = true
          · rw [if_pos g2]
            simpa [Block.isCode] using htail
          · rw [if_neg (by simpa using g2)]
            by_cases gc : jsStartsWith (jsTrim l0) "> [!NOTE]" = true
            · rw [if_pos gc]
              simpa [Block.isCode] using htail
            · rw [if_neg (by simpa using gc)]
              by_cases gq : jsStartsWith (jsTrim l0) "> " = true
              · rw [if_pos gq]
                simpa [Block.isCode] using htail
              · rw [if_neg (by simpa using gq)]
                rw [if_neg (by simpa [fenceLine] using hl0)]
                by_cases gf : jsStartsWith (jsTrim l0) "*Figure:" = true
                · rw [if_pos gf]
                  simpa [Block.isCode] using htail
                · rw [if_neg (by simpa using gf)]
                  by_cases gl : jsStartsWith (jsTrim l0) "- " = true
                  · rw [if_pos gl]
                    have hlf : listLine f = false := (fence_excludes f hf).2.2.2.2.2
                    rw [dropWhile_append_mid listLine pre' f post hlf]
                    have hdlen : (pre'.dropWhile listLine).length ≤ n :=
                      Nat.le_trans (List.dropWhile_sublist listLine).length_le hlen'
                    have hdpre : ∀ l ∈ pre'.dropWhile listLine, fenceLine l = false :=
                      fun l hl => hpre' l ((List.dropWhile_sublist listLine).subset hl)
                    have := ih (pre'.dropWhile listLine) hdlen f post hdpre hf hpost
                    simpa [Block.isCode] using this
                  · rw [if_neg (by simpa using gl)]
                    simpa [Block.isCode] using htail

/-- C6.  If the document's line split contains exactly one fence line (an
opening delimiter with no subsequent closing delimiter), the block parser
returns — without failing — exactly one code block, whose text is the
newline-join of all lines after the fence up to the end of input. -/
theorem parseBlocks_unterminated_fence (md : String) (pre : List String) (f : String)
    (post : List String)
    (hsplit : splitNl md = pre ++ f :: post)
    (hpre : ∀ l ∈ pre, fenceLine l = false)
    (hf : fenceLine f = true)
    (hpost : ∀ l ∈ post, fenceLine l = false) :
    (parseBlocks md).filter Block.isCode = [Block.code (joinNl post)] := by
  rw [parseBlocks, hsplit]
  exact parseBlocksGo_one_fence pre.length pre (Nat.le_refl _) f post hpre hf hpost

/-- Witness for C6: the spec's scenario — an opening fence, three lines, no
closing fence — yields exactly one code block holding the three lines. -/
theorem parseBlocks_unterminated_fence_witness :
    (parseBlocks "```\na\nb\nc").filter Block.isCode = [Block.code (joinNl ["a", "b", "c"])]
      ∧ joinNl ["a", "b", "c"] = "a\nb\nc" :=
  ⟨parseBlocks_unterminated_fence _ [] "```" ["a", "b", "c"] (by decide) (by simp)
      (by decide) (by decide),
    by decide⟩

/-! ## C7: totality and order-preserving line accounting -/

/-- The three accounting facts about the instrumented scan, proved together
by the functional induction of `parseBlocksAnnot`: (1) the consumed-line
records concatenate back to the input, in order (so every input line is
consumed by exactly one step, and the steps are in source order); (2)
dropping the `none` steps and keeping the blocks reproduces
`parseBlocksGo`; (3) a `none` step consumes exactly one line, and that line
is blank after trimming. -/
theorem parseBlocksAnnot_spec (lines : List String) :
    (parseBlocksAnnot lines).flatMap (fun p => p.2) = lines ∧
      (parseBlocksAnnot lines).filterMap (fun p => p.1) = parseBlocksGo lines ∧
      ∀ p ∈ parseBlocksAnnot lines, p.1 = none →
        ∃ l, p.2 = [l] ∧ jsTrim l = "" := by
  induction lines using parseBlocksAnnot.induct with
  | case1 =>
    refine ⟨?_, ?_, ?_⟩
    · simp [parseBlocksAnnot]
    · simp [parseBlocksAnnot, parseBlocksGo]
    · intro p hp
      simp [parseBlocksAnnot] at hp
  | case2 l0 rest line hb ih =>
    have hb' : (jsTrim l0 == "") = true := hb
    obtain ⟨ih1, ih2, ih3⟩ := ih
    refine ⟨?_, ?_, ?_⟩
    · simp only [parseBlocksAnnot]
      rw [if_pos hb']
      simp only [List.flatMap_cons, ih1]
      rfl
    · simp only [parseBlocksAnnot]
      rw [if_pos hb']
      simp only [parseBlocksGo]
      rw [if_pos hb']
      simp only [List.filterMap_cons, ih2]
    · intro p hp hnone
      simp only [parseBlocksAnnot] at hp
      rw [if_pos hb'] at hp
      rcases List.mem_cons.mp hp with rfl | hp2
      · exact ⟨l0, rfl, by simpa using hb'⟩
      · exact ih3 p hp2 hnone
  | case3 l0 rest line hb g3 ih =>
    have hb' : ¬((jsTrim l0 == "") = true) := hb
    have g3' : jsStartsWith (jsTrim l0) "### " = true := g3
    obtain ⟨ih1, ih2, ih3⟩ := ih
    refine ⟨?_, ?_, ?_⟩
    · simp only [parseBlocksAnnot]
      rw [if_neg hb', if_pos g3']
      simp only [List.flatMap_cons, ih1]
      rfl
    · simp only [parseBlocksAnnot]
      rw [if_neg hb', if_pos g3']
      simp only [parseBlocksGo]
      rw [if_neg hb', if_pos g3']
      simp only [List.filterMap_cons, ih2]
    · intro p hp hnone
      simp only [parseBlocksAnnot] at hp
      rw [if_neg hb', if_pos g3'] at hp
      rcases List.mem_cons.mp hp with rfl | hp2
      · exact absurd hnone (by simp)
      · exact ih3 p hp2 hnone
  | case4 l0 rest line hb g3 g2 ih =>
    have hb' : ¬((jsTrim l0 == "") = true) := hb
    have g3' : ¬(jsStartsWith (jsTrim l0) "### " = true) := g3
    have g2' : jsStartsWith (jsTrim l0) "## " = true := g2
    obtain ⟨ih1, ih2, ih3⟩ := ih
    refine ⟨?_, ?_, ?_⟩
    · simp only [parseBlocksAnnot]
      rw [if_neg hb', if_neg g3', if_pos g2']
      simp only [List.flatMap_cons, ih1]
      rfl
    · simp only [parseBlocksAnnot]
      rw [if_neg hb', if_neg g3', if_pos g2']
      simp only [parseBlocksGo]
      rw [if_neg hb', if_neg g3', if_pos g2']
      simp only [List.filterMap_cons, ih2]
    · intro p hp hnone
      simp only [parseBlocksAnnot] at hp
      rw [if_neg hb', if_neg g3', if_pos g2'] at hp
      rcases List.mem_cons.mp hp with rfl | hp2
      · exact absurd hnone (by simp)
      · exact ih3 p hp2 hnone
  | case5 l0 rest line hb g3 g2 gc ih =>
    have hb' : ¬((jsTrim l0 == "") = true) := hb
    have g3' : ¬(jsStartsWith (jsTrim l0) "### " = true) := g3
    have g2' : ¬(jsStartsWith (jsTrim l0) "## " = true) := g2
    have gc' : jsStartsWith (jsTrim l0) "> [!NOTE]" = true := gc
    obtain ⟨ih1, ih2, ih3⟩ := ih
    refine ⟨?_, ?_, ?_⟩
    · simp only [parseBlocksAnnot]
      rw [if_neg hb', if_neg g3', if_neg g2', if_pos gc']
      simp only [List.flatMap_cons, ih1]
      rfl
    · simp only [parseBlocksAnnot]
      rw [if_neg hb', if_neg g3', if_neg g2', if_pos gc']
      simp only [parseBlocksGo]
      rw [if_neg hb', if_neg g3', if_neg g2', if_pos gc']
      simp only [List.filterMap_cons, ih2]
    · intro p hp hnone
      simp only [parseBlocksAnnot] at hp
      rw [if_neg hb', if_neg g3', if_neg g2', if_pos gc'] at hp
      rcases List.mem_cons.mp hp with rfl | hp2
      · exact absurd hnone (by simp)
      · exact ih3 p hp2 hnone
  | case6 l0 rest line hb g3 g2 gc gq ih =>
    have hb' : ¬((jsTrim l0 == "") = true) := hb
    have g3' : ¬(jsStartsWith (jsTrim l0) "### " = true) := g3
    have g2' : ¬(jsStartsWith (jsTrim l0) "## " = true) := g2
    have gc' : ¬(jsStartsWith (jsTrim l0) "> [!NOTE]" = true) := gc
    have gq' : jsStartsWith (jsTrim l0) "> " = true := gq
    obtain ⟨ih1, ih2, ih3⟩ := ih
    refine ⟨?_, ?_, ?_⟩
    · simp only [parseBlocksAnnot]
      rw [if_neg hb', if_neg g3', if_neg g2', if_neg gc', if_pos gq']
      simp only [List.flatMap_cons, ih1]
      rfl
    · simp only [parseBlocksAnnot]
      rw [if_neg hb', if_neg g3', if_neg g2', if_neg gc', if_pos gq']
      simp only [parseBlocksGo]
      rw [if_neg hb', if_neg g3', if_neg g2', if_neg gc', if_pos gq']
      simp only [List.filterMap_cons, ih2]
    · intro p hp hnone
      simp only [parseBlocksAnnot] at hp
      rw [if_neg hb', if_neg g3', if_neg g2', if_neg gc', if_pos gq'] at hp
      rcases List.mem_cons.mp hp with rfl | hp2
      · exact absurd hnone (by simp)
      · exact ih3 p hp2 hnone
  | case7 l0 rest line hb g3 g2 gc gq gk ih =>
    have hb' : ¬((jsTrim l0 == "") = true) := hb
    have g3' : ¬(jsStartsWith (jsTrim l0) "### " = true) := g3
    have g2' : ¬(jsStartsWith (jsTrim l0) "## " = true) := g2
    have gc' : ¬(jsStartsWith (jsTrim l0) "> [!NOTE]" = true) := gc
    have gq' : ¬(jsStartsWith (jsTrim l0) "> " = true) := gq
    have gk' : jsStartsWith (jsTrim l0) "```" = true := gk
    obtain ⟨ih1, ih2, ih3⟩ := ih
    refine ⟨?_, ?_, ?_⟩
    · simp only [parseBlocksAnnot]
      rw [if_neg hb', if_neg g3', if_neg g2', if_neg gc', if_neg gq', if_pos gk']
      simp only [List.flatMap_cons, ih1, List.cons_append, List.append_assoc,
        List.take_append_drop, List.takeWhile_append_dropWhile]
    · simp only [parseBlocksAnnot]
      rw [if_neg hb', if_neg g3', if_neg g2', if_neg gc', if_neg gq', if_pos gk']
      simp only [parseBlocksGo]
      rw [if_neg hb', if_neg g3', if_neg g2', if_neg gc', if_neg gq', if_pos gk']
      simp only [List.filterMap_cons, ih2]
    · intro p hp hnone
      simp only [parseBlocksAnnot] at hp
      rw [if_neg hb', if_neg g3', if_neg g2', if_neg gc', if_neg gq', if_pos gk'] at hp
      rcases List.mem_cons.mp hp with rfl | hp2
      · exact absurd hnone (by simp)
      · exact ih3 p hp2 hnone
  | case8 l0 rest line hb g3 g2 gc gq gk gf ih =>
    have hb' : ¬((jsTrim l0 == "") = true) := hb
    have g3' : ¬(jsStartsWith (jsTrim l0) "### " = true) := g3
    have g2' : ¬(jsStartsWith (jsTrim l0) "## " = true) := g2
    have gc' : ¬(jsStartsWith (jsTrim l0) "> [!NOTE]" = true) := gc
    have gq' : ¬(jsStartsWith (jsTrim l0) "> " = true) := gq
    have gk' : ¬(jsStartsWith (jsTrim l0) "```" = true) := gk
    have gf' : jsStartsWith (jsTrim l0) "*Figure:" = true := gf
    obtain ⟨ih1, ih2, ih3⟩ := ih
    refine ⟨?_, ?_, ?_⟩
    · simp only [parseBlocksAnnot]
      rw [if_neg hb', if_neg g3', if_neg g2', if_neg gc', if_neg gq', if_neg gk', if_pos gf']
      simp only [List.flatMap_cons, ih1]
      rfl
    · simp only [parseBlocksAnnot]
      rw [if_neg hb', if_neg g3', if_neg g2', if_neg gc', if_neg gq', if_neg gk', if_pos gf']
      simp only [parseBlocksGo]
      rw [if_neg hb', if_neg g3', if_neg g2', if_neg gc', if_neg gq', if_neg gk', if_pos gf']
      simp only [List.filterMap_cons, ih2]
    · intro p hp hnone
      simp only [parseBlocksAnnot] at hp
      rw [if_neg hb', if_neg g3', if_neg g2', if_neg gc', if_neg gq', if_neg gk', if_pos gf'] at hp
      rcases List.mem_cons.mp hp with rfl | hp2
      · exact absurd hnone (by simp)
      · exact ih3 p hp2 hnone
  | case9 l0 rest line hb g3 g2 gc gq gk gf gl ih =>
    have hb' : ¬((jsTrim l0 == "") = true) := hb
    have g3' : ¬(jsStartsWith (jsTrim l0) "### " = true) := g3
    have g2' : ¬(jsStartsWith (jsTrim l0) "## " = true) := g2
    have gc' : ¬(jsStartsWith (jsTrim l0) "> [!NOTE]" = true) := gc
    have gq' : ¬(jsStartsWith (jsTrim l0) "> " = true) := gq
    have gk' : ¬(jsStartsWith (jsTrim l0) "```" = true) := gk
    have gf' : ¬(jsStartsWith (jsTrim l0) "*Figure:" = true) := gf
    have gl' : jsStartsWith (jsTrim l0) "- " = true := gl
    obtain ⟨ih1, ih2, ih3⟩ := ih
    refine ⟨?_, ?_, ?_⟩
    · simp only [parseBlocksAnnot]
      rw [if_neg hb', if_neg g3', if_neg g2', if_neg gc', if_neg gq', if_neg gk', if_neg gf', if_pos gl']
      simp only [List.flatMap_cons, ih1, List.cons_append]
      rw [List.takeWhile_append_dropWhile]
    · simp only [parseBlocksAnnot]
      rw [if_neg hb', if_neg g3', if_neg g2', if_neg gc', if_neg gq', if_neg gk', if_neg gf', if_pos gl']
      simp only [parseBlocksGo]
      rw [if_neg hb', if_neg g3', if_neg g2', if_neg gc', if_neg gq', if_neg gk', if_neg gf', if_pos gl']
      simp only [List.filterMap_cons, ih2]
    · intro p hp hnone
      simp only [parseBlocksAnnot] at hp
      rw [if_neg hb', if_neg g3', if_neg g2', if_neg gc', if_neg gq', if_neg gk', if_neg gf', if_pos gl'] at hp
      rcases List.mem_cons.mp hp with rfl | hp2
      · exact absurd hnone (by simp)
      · exact ih3 p hp2 hnone
  | case10 l0 rest line hb g3 g2 gc gq gk gf gl ih =>
    have hb' : ¬((jsTrim l0 == "") = true) := hb
    have g3' : ¬(jsStartsWith (jsTrim l0) "### " = true) := g3
    have g2' : ¬(jsStartsWith (jsTrim l0) "## " = true) := g2
    have gc' : ¬(jsStartsWith (jsTrim l0) "> [!NOTE]" = true) := gc
    have gq' : ¬(jsStartsWith (jsTrim l0) "> " = true) := gq
    have gk' : ¬(jsStartsWith (jsTrim l0) "```" = true) := gk
    have gf' : ¬(jsStartsWith (jsTrim l0) "*Figure:" = true) := gf
    have gl' : ¬(jsStartsWith (jsTrim l0) "- " = true) := gl
    obtain ⟨ih1, ih2, ih3⟩ := ih
    refine ⟨?_, ?_, ?_⟩
    · simp only [parseBlocksAnnot]
      rw [if_neg hb', if_neg g3', if_neg g2', if_neg gc', if_neg gq', if_neg gk', if_neg gf', if_neg gl']
      simp only [List.flatMap_cons, ih1]
      rfl
    · simp only [parseBlocksAnnot]
      rw [if_neg hb', if_neg g3', if_neg g2', if_neg gc', if_neg gq', if_neg gk', if_neg gf', if_neg gl']
      simp only [parseBlocksGo]
      rw [if_neg hb', if_neg g3', if_neg g2', if_neg gc', if_neg gq', if_neg gk', if_neg gf', if_neg gl']
      simp only [List.filterMap_cons, ih2]
    · intro p hp hnone
      simp only [parseBlocksAnnot] at hp
      rw [if_neg hb', if_neg g3', if_neg g2', if_neg gc', if_neg gq', if_neg gk', if_neg gf', if_neg gl'] at hp
      rcases List.mem_cons.mp hp with rfl | hp2
      · exact absurd hnone (by simp)
      · exact ih3 p hp2 hnone

/-- C7.  The markdown block parser is total (a Lean function defined on
every input string) and order-preserving: the instrumented scan consumes
the input's line split exactly — its per-step consumed-line records
concatenate back, in source order, to the full line sequence, so every
non-blank line is accounted for by exactly one emitted block (list and code
blocks consuming their aggregated runs), and the only lines not belonging
to an emitted block are skipped lines that are blank after trimming. -/
theorem parseBlocks_order_preserving (md : String) :
    (parseBlocksAnnot (splitNl md)).flatMap (fun p => p.2) = splitNl md ∧
      (parseBlocksAnnot (splitNl md)).filterMap (fun p => p.1) = parseBlocks md ∧
      ∀ p ∈ parseBlocksAnnot (splitNl md), p.1 = none →
        ∃ l, p.2 = [l] ∧ jsTrim l = "" :=
  parseBlocksAnnot_spec (splitNl md)

/-- Witness for C7 at a concrete document mixing every aggregation form. -/
theorem parseBlocks_order_preserving_witness :
    (parseBlocksAnnot (splitNl "# t\n\n- a\n- b\n```\nx\ny")).flatMap (fun p => p.2)
      = splitNl "# t\n\n- a\n- b\n```\nx\ny" :=
  (parseBlocks_order_preserving "# t\n\n- a\n- b\n```\nx\ny").1

end AiDaily
